import Mathlib

/-!
Verification development for `dailychange.py`, a terminal stock-price monitor:
it builds a persisted ticker-to-sector cache, then loops forever fetching a
five-day window of daily closes, computing each ticker's percent change
versus the previous close, and rendering a sector-grouped report.

Python dictionaries are modelled as association lists over `String` keys
(first-match lookup, in-place overwrite on key collision, append on fresh
keys), matching CPython dict semantics.  Prices are modelled as rationals.
External collaborators (the per-ticker sector lookup and the batched price
download) are parameters of the embedded functions.
-/

namespace DailyChange

abbrev Ticker := String

abbrev Sector := String

/-- First-match lookup in an association list, i.e. `d[k]` / `d.get(k)`. -/
def dictGet {α : Type} : List (String × α) → String → Option α
  | [], _ => none
  | p :: d, k => if p.1 = k then some p.2 else dictGet d k

/-- Key membership, i.e. `k in d`. -/
def dictMem {α : Type} (d : List (String × α)) (k : String) : Bool :=
  (dictGet d k).isSome

/-- `d.get(k, dflt)`. -/
def dictGetD {α : Type} (d : List (String × α)) (k : String) (dflt : α) : α :=
  (dictGet d k).getD dflt

/-- `d[k] = v`: overwrite in place when the key is present, append otherwise. -/
def dictInsert {α : Type} (d : List (String × α)) (k : String) (v : α) :
    List (String × α) :=
  if dictMem d k then d.map (fun p => if p.1 = k then (k, v) else p)
  else d ++ [(k, v)]

/-- `d.update(e)`: insert every entry of `e` into `d`, left to right. -/
def dictUpdate {α : Type} (d e : List (String × α)) : List (String × α) :=
  e.foldl (fun acc p => dictInsert acc p.1 p.2) d

theorem dictMem_cons {α : Type} (p : String × α) (d : List (String × α))
    (k : String) :
    dictMem (p :: d) k = (p.1 = k || dictMem d k) := by
  by_cases hp : p.1 = k <;> simp [dictMem, dictGet, hp]

theorem dictGet_map_replace {α : Type} (d : List (String × α)) (k kq : String)
    (v : α) :
    dictGet (d.map (fun p => if p.1 = k then (k, v) else p)) kq
      = if kq = k then (if dictMem d k then some v else none) else dictGet d kq := by
  induction d with
  | nil => simp [dictGet, dictMem]
  | cons p d ih =>
      by_cases hp : p.1 = k
      · by_cases hq : kq = k
        · subst hq
          simp [dictGet, dictMem_cons, hp, List.map_cons, ih]
        · have hk : ¬(k = kq) := fun h => hq h.symm
          simp [dictGet, List.map_cons, hp, hk, ih, hq]
      · by_cases hq : kq = k
        · subst hq
          have hp2 : ¬(p.1 = kq) := hp
          simp [dictGet, List.map_cons, hp, hp2, dictMem_cons, ih]
        · by_cases hpq : p.1 = kq <;>
            simp [dictGet, List.map_cons, hp, hpq, ih, hq]

theorem dictGet_append {α : Type} (d e : List (String × α)) (k : String) :
    dictGet (d ++ e) k = (dictGet d k).or (dictGet e k) := by
  induction d with
  | nil => simp [dictGet]
  | cons p d ih => by_cases hp : p.1 = k <;> simp [dictGet, hp, ih]

theorem dictGet_dictInsert {α : Type} (d : List (String × α)) (k kq : String)
    (v : α) :
    dictGet (dictInsert d k v) kq = if kq = k then some v else dictGet d kq := by
  unfold dictInsert
  by_cases hm : dictMem d k
  · rw [if_pos hm, dictGet_map_replace, if_pos hm]
  · rw [if_neg hm, dictGet_append]
    by_cases hq : kq = k
    · subst hq
      have hnone : dictGet d kq = none := by
        unfold dictMem at hm
        cases h : dictGet d kq <;> simp [h] at hm ⊢
      simp [hnone, dictGet]
    · have hk : ¬(k = kq) := fun h => hq h.symm
      simp [dictGet, hk, hq]

theorem dictMem_dictInsert {α : Type} (d : List (String × α)) (k kq : String)
    (v : α) :
    dictMem (dictInsert d k v) kq = (kq = k || dictMem d kq) := by
  unfold dictMem
  rw [dictGet_dictInsert]
  by_cases hq : kq = k <;> simp [hq]

theorem mem_entry_dictInsert {α : Type} (d : List (String × α)) (k : String)
    (v : α) (p : String × α) (hp : p ∈ dictInsert d k v) :
    p ∈ d ∨ p = (k, v) := by
  unfold dictInsert at hp
  by_cases hm : dictMem d k
  · rw [if_pos hm] at hp
    rcases List.mem_map.mp hp with ⟨q, hq, hqe⟩
    by_cases hqk : q.1 = k
    · right
      simpa [hqk] using hqe.symm
    · left
      have hpq : p = q := by
        rw [← hqe]
        simp [hqk]
      exact hpq ▸ hq
  · rw [if_neg hm] at hp
    rcases List.mem_append.mp hp with h | h
    · exact Or.inl h
    · exact Or.inr (List.mem_singleton.mp h)

theorem dictUpdate_cons {α : Type} (d : List (String × α)) (p : String × α)
    (e : List (String × α)) :
    dictUpdate d (p :: e) = dictUpdate (dictInsert d p.1 p.2) e := rfl

theorem dictGet_dictUpdate_of_not_mem {α : Type} (d e : List (String × α))
    (k : String) (h : dictMem e k = false) :
    dictGet (dictUpdate d e) k = dictGet d k := by
  induction e generalizing d with
  | nil => rfl
  | cons p e ih =>
      rw [dictMem_cons] at h
      have hp : ¬(p.1 = k) := by
        intro hpk
        simp [hpk] at h
      have he : dictMem e k = false := by
        cases hm : dictMem e k <;> simp [hm, hp] at h ⊢
      rw [dictUpdate_cons, ih _ he, dictGet_dictInsert,
        if_neg (fun hk => hp hk.symm)]

theorem dictMem_dictUpdate {α : Type} (d e : List (String × α)) (k : String) :
    dictMem (dictUpdate d e) k = (dictMem d k || dictMem e k) := by
  induction e generalizing d with
  | nil => simp [dictUpdate, dictMem, dictGet]
  | cons p e ih =>
      rw [dictUpdate_cons, ih, dictMem_cons]
      unfold dictMem
      rw [dictGet_dictInsert]
      by_cases hk : k = p.1
      · simp [hk]
      · have hp : ¬(p.1 = k) := fun h => hk h.symm
        simp [hk, hp]

theorem dictGet_dictUpdate_of_constant {α : Type} (d e : List (String × α))
    (k : String) (v : α) (hconst : ∀ p ∈ e, p.1 = k → p.2 = v)
    (hmem : dictMem e k = true) :
    dictGet (dictUpdate d e) k = some v := by
  induction e generalizing d with
  | nil => simp [dictMem, dictGet] at hmem
  | cons p e ih =>
      rw [dictUpdate_cons]
      by_cases he : dictMem e k = true
      · exact ih _ (fun q hq => hconst q (List.mem_cons_of_mem p hq)) he
      · have he2 : dictMem e k = false := by
          cases h2 : dictMem e k <;> simp [h2] at he ⊢
        rw [dictMem_cons] at hmem
        have hp : p.1 = k := by
          by_cases hp2 : p.1 = k
          · exact hp2
          · simp [hp2, he2] at hmem
        rw [dictGet_dictUpdate_of_not_mem _ _ _ he2, dictGet_dictInsert,
          if_pos hp.symm, hconst p (List.mem_cons_self p e) hp]

/-! ### Sector cache (`load_sector_cache`, `build_sector_cache`, `ensure_sector_cache`) -/

/-- A parsed JSON value, as `json.load` can produce it. -/
inductive JValue where
  | null
  | bool (b : Bool)
  | num (q : ℚ)
  | str (s : String)
  | arr (elems : List JValue)
  | obj (entries : List (String × JValue))

/-- The observable state of the cache file when `load_sector_cache` runs:
absent (`os.path.exists` is false), unreadable (`open` raises), malformed
(`json.load` raises), or readable with a parsed JSON value. -/
inductive FileState where
  | absent
  | unreadable
  | malformed
  | content (v : JValue)

/-- `load_sector_cache`: returns the parsed value when the file exists, reads
and parses, and the value is a dict (`isinstance(data, dict)`); every other
state falls through to the final `return {}`. -/
def load_sector_cache : FileState → List (String × JValue)
  | .content (.obj entries) => entries
  | _ => []

/-- Spec-side predicate: the loaded data is a well-formed key-to-string
mapping (every value is a JSON string). -/
def wellFormedStringMap (entries : List (String × JValue)) : Prop :=
  ∀ p ∈ entries, ∃ s, p.2 = JValue.str s

/-- Outcome of one external per-ticker sector lookup (`yf.Ticker(tk).info`):
the call raises, or returns an info dict whose `"sector"` key is absent or
holds a sector string. -/
inductive LookupOutcome where
  | fail
  | ok (sector : Option String)

/-- `info.get("sector", "Unknown")`, with the exception handler's
`sectors[tk] = "Unknown"` fallback. -/
def sectorOf : LookupOutcome → Sector
  | .fail => "Unknown"
  | .ok none => "Unknown"
  | .ok (some s) => s

abbrev SectorMap := List (Ticker × Sector)

/-- `build_sector_cache(tickers)`: one external lookup per ticker in the given
list, each recorded in a fresh dict (failed lookups record `"Unknown"`). -/
def build_sector_cache (lookup : Ticker → LookupOutcome)
    (tickers : List Ticker) : SectorMap :=
  tickers.foldl (fun acc tk => dictInsert acc tk (sectorOf (lookup tk))) []

/-- What one `ensure_sector_cache` call produced: the returned mapping, the
cache-file contents after the call (the write is modelled as succeeding), and
the list of tickers for which an external lookup was performed. -/
structure EnsureResult where
  sectors : SectorMap
  persisted : SectorMap
  lookups : List Ticker
deriving DecidableEq

/-- `ensure_sector_cache(path, tickers)` with the loaded cache made explicit:
compute the tickers missing from the loaded cache; if any, fetch exactly
those, merge with `sectors.update(fetched)`, and persist the merged dict. -/
def ensure_sector_cache (lookup : Ticker → LookupOutcome) (loaded : SectorMap)
    (tickers : List Ticker) : EnsureResult :=
  if (tickers.filter (fun tk => !(dictMem loaded tk))).isEmpty then
    ⟨loaded, loaded, []⟩
  else
    ⟨dictUpdate loaded
        (build_sector_cache lookup (tickers.filter (fun tk => !(dictMem loaded tk)))),
     dictUpdate loaded
        (build_sector_cache lookup (tickers.filter (fun tk => !(dictMem loaded tk)))),
     tickers.filter (fun tk => !(dictMem loaded tk))⟩

theorem ensure_eq_pos (lookup : Ticker → LookupOutcome) (loaded : SectorMap)
    (tickers : List Ticker)
    (hm : (tickers.filter (fun tk => !(dictMem loaded tk))).isEmpty = true) :
    ensure_sector_cache lookup loaded tickers = ⟨loaded, loaded, []⟩ := by
  unfold ensure_sector_cache
  rw [hm]
  rfl

theorem ensure_eq_neg (lookup : Ticker → LookupOutcome) (loaded : SectorMap)
    (tickers : List Ticker)
    (hm : (tickers.filter (fun tk => !(dictMem loaded tk))).isEmpty = false) :
    ensure_sector_cache lookup loaded tickers
      = ⟨dictUpdate loaded
            (build_sector_cache lookup
              (tickers.filter (fun tk => !(dictMem loaded tk)))),
         dictUpdate loaded
            (build_sector_cache lookup
              (tickers.filter (fun tk => !(dictMem loaded tk)))),
         tickers.filter (fun tk => !(dictMem loaded tk))⟩ := by
  unfold ensure_sector_cache
  rw [hm]
  rfl

theorem build_foldl_mem (lookup : Ticker → LookupOutcome)
    (tickers : List Ticker) (k : Ticker) :
    ∀ acc : SectorMap,
      dictMem (List.foldl
        (fun a tk => dictInsert a tk (sectorOf (lookup tk))) acc tickers) k = true
      ↔ dictMem acc k = true ∨ k ∈ tickers := by
  induction tickers with
  | nil => simp
  | cons tk tks ih =>
      intro acc
      rw [List.foldl_cons, ih]
      unfold dictMem
      rw [dictGet_dictInsert]
      by_cases hk : k = tk
      · simp [hk]
      · simp only [if_neg hk, List.mem_cons]
        constructor
        · rintro (h | h)
          · exact Or.inl h
          · exact Or.inr (Or.inr h)
        · rintro (h | h | h)
          · exact Or.inl h
          · exact absurd h hk
          · exact Or.inr h

theorem build_sector_cache_mem (lookup : Ticker → LookupOutcome)
    (tickers : List Ticker) (k : Ticker) :
    dictMem (build_sector_cache lookup tickers) k = true ↔ k ∈ tickers := by
  have h := build_foldl_mem lookup tickers k []
  simpa [build_sector_cache, dictMem, dictGet] using h

theorem build_foldl_values (lookup : Ticker → LookupOutcome)
    (tickers : List Ticker) :
    ∀ acc : SectorMap, (∀ q ∈ acc, q.2 = sectorOf (lookup q.1)) →
      ∀ q ∈ List.foldl
        (fun a tk => dictInsert a tk (sectorOf (lookup tk))) acc tickers,
      q.2 = sectorOf (lookup q.1) := by
  induction tickers with
  | nil =>
      intro acc hacc q hq
      exact hacc q (by simpa using hq)
  | cons tk tks ih =>
      intro acc hacc q hq
      rw [List.foldl_cons] at hq
      refine ih _ ?_ q hq
      intro r hr
      rcases mem_entry_dictInsert _ _ _ _ hr with h | h
      · exact hacc r h
      · rw [h]

theorem build_sector_cache_values (lookup : Ticker → LookupOutcome)
    (tickers : List Ticker) (p : Ticker × Sector)
    (hp : p ∈ build_sector_cache lookup tickers) :
    p.2 = sectorOf (lookup p.1) :=
  build_foldl_values lookup tickers [] (by simp) p hp

/-! ### Price data and the per-ticker change computation -/

/-- The batched download result, restricted to its `"Close"` block: for each
ticker column, the date-ordered series of closes, `none` marking a missing
value (NaN) that `dropna()` removes. -/
abbrev Table := List (Ticker × List (Option ℚ))

/-- One per-ticker, per-cycle result dict.  Successful rows carry no
`"Error"` key (`error = none`); failed rows carry `"% Change": None` and an
error string. -/
structure ChangeResult where
  ticker : Ticker
  sector : Sector
  previous : Option ℚ
  current : Option ℚ
  percentChange : Option ℚ
  error : Option String
deriving DecidableEq

/-- `str(exc)` for the `KeyError` raised by `data["Close"][tk]` when the
ticker column is absent: the quoted key. -/
def keyErrorMsg (tk : Ticker) : String :=
  "\x27" ++ tk ++ "\x27"

/-- The body of the per-ticker loop: extract the close series, drop missing
values, require at least two points, and either compute the percent change or
record the caught exception's message. -/
def computeResult (sectors : SectorMap) (table : Table) (tk : Ticker) :
    ChangeResult :=
  match dictGet table tk with
  | none =>
      { ticker := tk, sector := dictGetD sectors tk "Unknown",
        previous := none, current := none, percentChange := none,
        error := some (keyErrorMsg tk) }
  | some series =>
      let s := series.filterMap id
      if s.length < 2 then
        { ticker := tk, sector := dictGetD sectors tk "Unknown",
          previous := none, current := none, percentChange := none,
          error := some "Insufficient history" }
      else
        let prev := s.getD (s.length - 2) 0
        let cur := s.getD (s.length - 1) 0
        { ticker := tk, sector := dictGetD sectors tk "Unknown",
          previous := some prev, current := some cur,
          percentChange := some ((cur - prev) / prev * 100),
          error := none }

/-- The `results` list built by one cycle, one entry per universe ticker. -/
def cycleResults (sectors : SectorMap) (table : Table) (tks : List Ticker) :
    List ChangeResult :=
  tks.map (computeResult sectors table)

/-- Python truthiness of `r.get("Error")`: an absent key or an empty string
is falsy. -/
def errTruthy : Option String → Bool
  | none => false
  | some s => !s.isEmpty

/-- `pd.DataFrame(results).dropna(subset=["% Change"])`: the rows whose
percent change is present, in original order. -/
def validOf (rs : List ChangeResult) : List ChangeResult :=
  rs.filter (fun r => r.percentChange.isSome)

/-- `[r for r in results if r.get("Error")]`. -/
def errsOf (rs : List ChangeResult) : List ChangeResult :=
  rs.filter (fun r => errTruthy r.error)

/-- Number of valid (non-missing) closes the table holds for a ticker. -/
def numValidCloses (table : Table) (tk : Ticker) : ℕ :=
  (((dictGet table tk).getD []).filterMap id).length

theorem getD_append_two (rest : List ℚ) (p c : ℚ) :
    (rest ++ [p, c]).getD ((rest ++ [p, c]).length - 2) 0 = p
      ∧ (rest ++ [p, c]).getD ((rest ++ [p, c]).length - 1) 0 = c := by
  have hlen : (rest ++ [p, c]).length = rest.length + 2 := by simp
  constructor
  · rw [List.getD_eq_getElem?_getD, hlen]
    have h2 : rest.length + 2 - 2 = rest.length := by omega
    rw [h2, List.getElem?_append_right (Nat.le_refl _)]
    simp
  · rw [List.getD_eq_getElem?_getD, hlen]
    have h2 : rest.length ≤ rest.length + 2 - 1 := by omega
    rw [List.getElem?_append_right h2]
    have h3 : rest.length + 2 - 1 - rest.length = 1 := by omega
    rw [h3]
    simp

theorem eq_append_two_last (s : List ℚ) (h : 2 ≤ s.length) :
    ∃ rest p c, s = rest ++ [p, c]
      ∧ s.getD (s.length - 2) 0 = p ∧ s.getD (s.length - 1) 0 = c := by
  have hl : s.reverse.length = s.length := List.length_reverse s
  cases hr : s.reverse with
  | nil =>
      rw [hr] at hl
      simp at hl
      omega
  | cons c r2 =>
      cases r2 with
      | nil =>
          rw [hr] at hl
          simp at hl
          omega
      | cons p t =>
          have hs : s = t.reverse ++ [p, c] := by
            have h2 := congrArg List.reverse hr
            simpa using h2
          refine ⟨t.reverse, p, c, hs, ?_, ?_⟩
          · rw [hs]
            exact (getD_append_two t.reverse p c).1
          · rw [hs]
            exact (getD_append_two t.reverse p c).2

/-! ### Report rendering -/

/-- The sort key of a `valid` row: its percent change (always present). -/
def pcKey (r : ChangeResult) : ℚ :=
  r.percentChange.getD 0

/-- `valid.sort_values(by="% Change", ascending=False)`: for a descending
sort pandas (`nargsort`) reverses the values and their indices, argsorts
ascending (a stable kernel: numpy uses insertion sort on small arrays), and
reverses the resulting indexer, so ties keep their original relative order. -/
def sortValuesDesc (rows : List ChangeResult) : List ChangeResult :=
  (List.insertionSort (fun a b => pcKey a ≤ pcKey b) rows.reverse).reverse

/-- `Series.unique()`: distinct values in order of first appearance. -/
def uniqueFirst (xs : List Sector) : List Sector :=
  xs.foldl (fun acc x => if x ∈ acc then acc else acc ++ [x]) []

/-- `sorted(valid["Sector"].unique())`. -/
def sortedSectors (rows : List ChangeResult) : List Sector :=
  List.insertionSort (fun a b => a ≤ b)
    (uniqueFirst (rows.map (fun r => r.sector)))

/-- The rendered table: one block per sector in sorted order, each block
holding `valid[valid["Sector"] == sector]` of the globally sorted rows. -/
def report (rows : List ChangeResult) : List (Sector × List ChangeResult) :=
  let sortedRows := sortValuesDesc rows
  (sortedSectors sortedRows).map
    (fun sec => (sec, sortedRows.filter (fun r => decide (r.sector = sec))))

/-! ### Scheduler loop -/

/-- One `yf.download` call per cycle: the call raises (network or malformed
response), or returns a close table (possibly empty). -/
inductive FetchResult where
  | error (msg : String)
  | ok (table : Table)

/-- `data is None or data.empty`: a frame with no rows has every column
series empty. -/
def tableEmpty (t : Table) : Bool :=
  t.all (fun p => p.2.isEmpty)

/-- What one pass of the loop body prints: either the top-level `except`
fired (cycle failed, logged), or the cycle rendered — with a no-valid-rows
warning or a table of sector blocks — followed by the error lines. -/
inductive CycleOutcome where
  | failed (msg : String)
  | rendered (noValidWarning : Bool) (blocks : List (Sector × List ChangeResult))
      (errorLines : List (Ticker × String))
deriving DecidableEq

/-- The `try` block up to building `results`: a fetch error or the
empty-data `ValueError` propagates as `Except.error`. -/
def cycleBody (sectors : SectorMap) (tks : List Ticker) :
    FetchResult → Except String (List ChangeResult)
  | .error msg => .error msg
  | .ok table =>
      if tableEmpty table then .error "No data returned from Yahoo Finance"
      else .ok (cycleResults sectors table tks)

/-- The display section of the loop body. -/
def renderCycle (rs : List ChangeResult) : CycleOutcome :=
  let valid := validOf rs
  let errLines := (errsOf rs).map (fun r => (r.ticker, r.error.getD ""))
  if valid.isEmpty then .rendered true [] errLines
  else .rendered false (report valid) errLines

/-- One full FETCHING state: run the body and catch anything it raises. -/
def runCycle (sectors : SectorMap) (tks : List Ticker) (f : FetchResult) :
    CycleOutcome :=
  match cycleBody sectors tks f with
  | .error e => .failed e
  | .ok rs => renderCycle rs

/-- The `while True` loop over a stream of fetch outcomes, threading the
sector mapping (the only state crossing cycle boundaries) and collecting
each cycle's outcome. -/
def runLoop (sectors : SectorMap) (tks : List Ticker) :
    List FetchResult → SectorMap × List CycleOutcome
  | [] => (sectors, [])
  | f :: fs =>
      let step := (sectors, runCycle sectors tks f)
      let rest := runLoop step.1 tks fs
      (rest.1, step.2 :: rest.2)

theorem runLoop_spec (sectors : SectorMap) (tks : List Ticker)
    (fs : List FetchResult) :
    runLoop sectors tks fs = (sectors, fs.map (runCycle sectors tks)) := by
  induction fs with
  | nil => rfl
  | cons f fs ih => simp [runLoop, ih]

/-- The compiled-in ticker universe. -/
def TICKERS : List Ticker :=
  ["SPY", "QQQ",
   "PEP", "KO", "COST", "WMT",
   "AMZN", "BABA", "F", "TSLA", "NIO", "MCD", "DKNG", "MELI", "SE", "EBAY",
   "BKNG", "DASH", "WEN",
   "PINS", "SNAP", "RDDT", "META", "GOOG", "T", "AMC", "TTWO", "NFLX", "VZ",
   "BIDU", "ROKU", "DIS", "SONY", "SPOT", "MTCH",
   "DELL", "NVDA", "AMD", "AVGO", "TSM", "MU", "ORCL", "AAPL", "PLTR",
   "INTC", "QUBT", "MSFT", "ADBE", "QCOM", "ASML", "AMAT", "ADP", "IBM",
   "CRM", "NOW", "SHOP", "PANW", "CRWD", "MDB", "ZS", "DDOG", "ARM", "LRCX",
   "KLAC", "NXPI", "ON", "MRVL", "UBER",
   "PYPL", "HOOD", "V", "JPM", "AXP", "GS", "MA", "SQ", "COIN", "C", "BAC",
   "MS",
   "LLY", "UNH", "JNJ", "AMGN", "PFE", "MRK", "ABBV", "REGN", "BMY",
   "CTAS", "BA", "CAT", "GE", "HON", "LMT", "RTX",
   "XOM", "CVX"]

/-- `main`: build the sector mapping once with `ensure_sector_cache`, then
enter the loop with it. -/
def mainRun (lookup : Ticker → LookupOutcome) (loaded : SectorMap)
    (fs : List FetchResult) : SectorMap × List CycleOutcome :=
  runLoop (ensure_sector_cache lookup loaded TICKERS).sectors TICKERS fs

/-! ### Helper lemmas about one ticker's result -/

theorem keyErrorMsg_ne_empty (tk : Ticker) : keyErrorMsg tk ≠ "" := by
  intro h
  have h2 := congrArg String.length h
  rw [keyErrorMsg, String.length_append, String.length_append] at h2
  have h3 : ("\x27" : String).length = 1 := by decide
  have h4 : ("" : String).length = 0 := by decide
  rw [h3, h4] at h2
  omega

theorem errTruthy_some_iff (m : String) :
    errTruthy (some m) = true ↔ m ≠ "" := by
  simp only [errTruthy, Bool.not_eq_true']
  constructor
  · intro h he
    rw [he] at h
    exact absurd h (by decide)
  · intro h
    cases hb : m.isEmpty
    · rfl
    · exact absurd ((String.isEmpty_iff m).mp hb) h

/-- Branch analysis of `computeResult`: the ticker field, the two-closes
criterion for the percent change, and the exclusivity of percent change and
error message. -/
theorem computeResult_cases (sectors : SectorMap) (table : Table)
    (tk : Ticker) :
    (computeResult sectors table tk).ticker = tk
      ∧ ((2 ≤ numValidCloses table tk)
          ↔ (computeResult sectors table tk).percentChange.isSome = true)
      ∧ ((computeResult sectors table tk).percentChange.isSome = true
          → (computeResult sectors table tk).error = none)
      ∧ ((computeResult sectors table tk).percentChange = none
          → ∃ m, (computeResult sectors table tk).error = some m ∧ m ≠ "") := by
  cases hN : dictGet table tk with
  | none =>
      refine ⟨by simp [computeResult, hN], ?_, ?_, ?_⟩
      · simp [computeResult, hN, numValidCloses]
      · simp [computeResult, hN]
      · intro _
        exact ⟨keyErrorMsg tk, by simp [computeResult, hN], keyErrorMsg_ne_empty tk⟩
  | some series =>
      by_cases hlen : (series.filterMap id).length < 2
      · refine ⟨by simp [computeResult, hN, hlen], ?_, ?_, ?_⟩
        · simp [computeResult, hN, hlen, numValidCloses]
        · simp [computeResult, hN, hlen]
        · intro _
          exact ⟨"Insufficient history", by simp [computeResult, hN, hlen],
            by decide⟩
      · refine ⟨by simp [computeResult, hN, hlen], ?_, ?_, ?_⟩
        · simp [computeResult, hN, hlen, numValidCloses]
          omega
        · intro _
          simp [computeResult, hN, hlen]
        · intro hpc
          simp [computeResult, hN, hlen] at hpc

/-! ### C1 -/

/-- C1: for a ticker whose close series, after dropping missing values,
still has at least two values, the cycle's result has Previous equal to the
second-to-last remaining close, Current equal to the last remaining close,
and PercentChange equal to (Current − Previous) / Previous × 100 — stated by
exhibiting the dropped series as `rest ++ [previous, current]`. -/
theorem percentChange_formula (sectors : SectorMap) (table : Table)
    (tk : Ticker) (series : List (Option ℚ))
    (hseries : dictGet table tk = some series)
    (h2 : 2 ≤ (series.filterMap id).length) :
    ∃ rest p c, series.filterMap id = rest ++ [p, c]
      ∧ (computeResult sectors table tk).previous = some p
      ∧ (computeResult sectors table tk).current = some c
      ∧ (computeResult sectors table tk).percentChange
          = some ((c - p) / p * 100) := by
  obtain ⟨rest, p, c, hsplit, hprev, hcur⟩ :=
    eq_append_two_last (series.filterMap id) h2
  rw [List.getD_eq_getElem?_getD] at hprev hcur
  refine ⟨rest, p, c, hsplit, ?_, ?_, ?_⟩ <;>
    simp [computeResult, hseries, Nat.not_lt.mpr h2, hprev, hcur]

/-- C1 witness: closes 100 then 102 give Previous 100, Current 102,
PercentChange 2. -/
theorem percentChange_formula_witness :
    ∃ rest p c,
      ([some (100 : ℚ), some 102].filterMap id) = rest ++ [p, c]
        ∧ (computeResult [] [("SPY", [some 100, some 102])] "SPY").previous
            = some p
        ∧ (computeResult [] [("SPY", [some 100, some 102])] "SPY").current
            = some c
        ∧ (computeResult [] [("SPY", [some 100, some 102])] "SPY").percentChange
            = some ((c - p) / p * 100) :=
  percentChange_formula [] [("SPY", [some 100, some 102])] "SPY"
    [some 100, some 102] (by decide) (by decide)

/-! ### C2 -/

/-- C2: every processed ticker's result populates exactly one of
PercentChange and Error — at least two valid closes give a percent change
and no error, fewer give a non-empty error and no percent change — and the
result lands in exactly one of the `valid` partition and the error list. -/
theorem exactly_one_populated (sectors : SectorMap) (table : Table)
    (tks : List Ticker) (r : ChangeResult)
    (hr : r ∈ cycleResults sectors table tks) :
    ((2 ≤ numValidCloses table r.ticker)
        ↔ r.percentChange.isSome = true)
      ∧ ((r.percentChange.isSome = true ∧ r.error = none)
          ∨ (r.percentChange = none ∧ ∃ m, r.error = some m ∧ m ≠ ""))
      ∧ ((r ∈ validOf (cycleResults sectors table tks)
            ∧ r ∉ errsOf (cycleResults sectors table tks))
          ∨ (r ∉ validOf (cycleResults sectors table tks)
            ∧ r ∈ errsOf (cycleResults sectors table tks))) := by
  obtain ⟨tk, _, hrtk⟩ := List.mem_map.mp hr
  obtain ⟨hticker, hiff, hpe, hpn⟩ := computeResult_cases sectors table tk
  rw [hrtk] at hticker hiff hpe hpn
  refine ⟨hticker ▸ hiff, ?_, ?_⟩
  · cases hpc : r.percentChange with
    | none =>
        right
        exact ⟨rfl, hpn hpc⟩
    | some q =>
        left
        exact ⟨by simp [hpc], hpe (by simp [hpc])⟩
  · cases hpc : r.percentChange with
    | none =>
        obtain ⟨m, hm, hmne⟩ := hpn hpc
        right
        constructor
        · intro hv
          have := (List.mem_filter.mp hv).2
          simp [hpc] at this
        · exact List.mem_filter.mpr ⟨hr, by
            rw [hm]
            exact (errTruthy_some_iff m).mpr hmne⟩
    | some q =>
        left
        constructor
        · exact List.mem_filter.mpr ⟨hr, by simp [hpc]⟩
        · intro he
          have h2 := (List.mem_filter.mp he).2
          rw [hpe (by simp [hpc])] at h2
          simp [errTruthy] at h2

/-- C2 witness: a two-close ticker lands in `valid` only; a one-close ticker
lands in the error list only. -/
theorem exactly_one_populated_witness :
    (((2 ≤ numValidCloses [("A", [some (1 : ℚ), some 2])]
          (computeResult [] [("A", [some (1 : ℚ), some 2])] "A").ticker)
        ↔ (computeResult [] [("A", [some (1 : ℚ), some 2])] "A").percentChange.isSome
            = true)
      ∧ (((computeResult [] [("A", [some (1 : ℚ), some 2])] "A").percentChange.isSome
              = true
            ∧ (computeResult [] [("A", [some (1 : ℚ), some 2])] "A").error = none)
          ∨ ((computeResult [] [("A", [some (1 : ℚ), some 2])] "A").percentChange
              = none
            ∧ ∃ m, (computeResult [] [("A", [some (1 : ℚ), some 2])] "A").error
                = some m ∧ m ≠ ""))
      ∧ ((computeResult [] [("A", [some (1 : ℚ), some 2])] "A"
            ∈ validOf (cycleResults [] [("A", [some (1 : ℚ), some 2])] ["A"])
          ∧ computeResult [] [("A", [some (1 : ℚ), some 2])] "A"
            ∉ errsOf (cycleResults [] [("A", [some (1 : ℚ), some 2])] ["A"]))
        ∨ (computeResult [] [("A", [some (1 : ℚ), some 2])] "A"
            ∉ validOf (cycleResults [] [("A", [some (1 : ℚ), some 2])] ["A"])
          ∧ computeResult [] [("A", [some (1 : ℚ), some 2])] "A"
            ∈ errsOf (cycleResults [] [("A", [some (1 : ℚ), some 2])] ["A"])))) :=
  exactly_one_populated [] [("A", [some 1, some 2])] ["A"]
    (computeResult [] [("A", [some 1, some 2])] "A") (by simp [cycleResults])

/-! ### C8 -/

/-- C8: a ticker entirely absent from the price table gets a non-empty
error message, no percent change, and no row in the `valid` partition; and
every ticker's result depends only on that ticker's own column, so one
ticker's failure cannot change any other ticker's result. -/
theorem absent_ticker_isolated (sectors : SectorMap) (table : Table)
    (tk : Ticker) (tks : List Ticker) (h : dictGet table tk = none) :
    (∃ m, (computeResult sectors table tk).error = some m ∧ m ≠ "")
      ∧ (computeResult sectors table tk).percentChange = none
      ∧ computeResult sectors table tk
          ∉ validOf (cycleResults sectors table tks)
      ∧ ∀ (table2 : Table) (tk2 : Ticker),
          dictGet table2 tk2 = dictGet table tk2 →
          computeResult sectors table2 tk2 = computeResult sectors table tk2 := by
  refine ⟨⟨keyErrorMsg tk, by simp [computeResult, h], keyErrorMsg_ne_empty tk⟩,
    by simp [computeResult, h], ?_, ?_⟩
  · intro hv
    have h2 := (List.mem_filter.mp hv).2
    simp [computeResult, h] at h2
  · intro table2 tk2 he
    unfold computeResult
    rw [he]

/-- C8 witness: ticker XYZ absent from a table that has data for A. -/
theorem absent_ticker_isolated_witness :
    (∃ m, (computeResult [] [("A", [some (1 : ℚ), some 2])] "XYZ").error
        = some m ∧ m ≠ "")
      ∧ (computeResult [] [("A", [some (1 : ℚ), some 2])] "XYZ").percentChange
          = none
      ∧ computeResult [] [("A", [some (1 : ℚ), some 2])] "XYZ"
          ∉ validOf (cycleResults [] [("A", [some (1 : ℚ), some 2])] ["A", "XYZ"])
      ∧ ∀ (table2 : Table) (tk2 : Ticker),
          dictGet table2 tk2 = dictGet [("A", [some (1 : ℚ), some 2])] tk2 →
          computeResult [] table2 tk2
            = computeResult [] [("A", [some (1 : ℚ), some 2])] tk2 :=
  absent_ticker_isolated [] [("A", [some 1, some 2])] "XYZ" ["A", "XYZ"]
    (by decide)

/-! ### C3 -/

instance : IsTotal ChangeResult (fun a b => pcKey a ≤ pcKey b) :=
  ⟨fun a b => le_total (pcKey a) (pcKey b)⟩

instance : IsTrans ChangeResult (fun a b => pcKey a ≤ pcKey b) :=
  ⟨fun _ _ _ hab hbc => le_trans hab hbc⟩

theorem ensure_lookups_eq (lookup : Ticker → LookupOutcome) (loaded : SectorMap)
    (tickers : List Ticker) :
    (ensure_sector_cache lookup loaded tickers).lookups
      = tickers.filter (fun tk => !(dictMem loaded tk)) := by
  cases hm : (tickers.filter (fun tk => !(dictMem loaded tk))).isEmpty
  · rw [ensure_eq_neg lookup loaded tickers hm]
  · rw [ensure_eq_pos lookup loaded tickers hm]
    rw [List.isEmpty_iff] at hm
    rw [hm]

theorem ensure_persisted_eq (lookup : Ticker → LookupOutcome)
    (loaded : SectorMap) (tickers : List Ticker) :
    (ensure_sector_cache lookup loaded tickers).persisted
      = (ensure_sector_cache lookup loaded tickers).sectors := by
  cases hm : (tickers.filter (fun tk => !(dictMem loaded tk))).isEmpty
  · rw [ensure_eq_neg lookup loaded tickers hm]
  · rw [ensure_eq_pos lookup loaded tickers hm]

theorem ensure_all_mem (lookup : Ticker → LookupOutcome) (loaded : SectorMap)
    (tickers : List Ticker) (tk : Ticker) (htk : tk ∈ tickers) :
    dictMem (ensure_sector_cache lookup loaded tickers).sectors tk = true := by
  cases hm : (tickers.filter (fun tk => !(dictMem loaded tk))).isEmpty
  · rw [ensure_eq_neg lookup loaded tickers hm]
    rw [dictMem_dictUpdate]
    cases hload : dictMem loaded tk
    · have hmiss : tk ∈ tickers.filter (fun tk => !(dictMem loaded tk)) :=
        List.mem_filter.mpr ⟨htk, by simp [hload]⟩
      rw [(build_sector_cache_mem lookup _ tk).mpr hmiss]
      simp
    · simp
  · rw [ensure_eq_pos lookup loaded tickers hm]
    rw [List.isEmpty_iff] at hm
    have hall := List.filter_eq_nil_iff.mp hm tk htk
    simp only [Bool.not_eq_true'] at hall
    simpa using hall

/-! ### C4 -/

/-- C4: the lookups a call to `ensure_sector_cache` performs are exactly the
tickers absent from the loaded cache, and a second call over the same ticker
universe, loading what the first call persisted, performs zero lookups — for
any behaviour of the external lookup on either call. -/
theorem ensure_second_call_no_lookups
    (lookup lookup2 : Ticker → LookupOutcome) (loaded : SectorMap)
    (tickers : List Ticker) :
    (ensure_sector_cache lookup loaded tickers).lookups
        = tickers.filter (fun tk => !(dictMem loaded tk))
      ∧ (ensure_sector_cache lookup2
          (ensure_sector_cache lookup loaded tickers).persisted tickers).lookups
        = [] := by
  refine ⟨ensure_lookups_eq lookup loaded tickers, ?_⟩
  rw [ensure_lookups_eq, ensure_persisted_eq]
  rw [List.filter_eq_nil_iff]
  intro tk htk
  rw [ensure_all_mem lookup loaded tickers tk htk]
  simp

/-- C4 witness: a fresh cache over two tickers looks both up on the first
call and nothing on the second. -/
theorem ensure_second_call_no_lookups_witness :
    (ensure_sector_cache (fun _ => .ok (some "Tech")) [] ["A", "B"]).lookups
        = ["A", "B"].filter (fun tk => !(dictMem ([] : SectorMap) tk))
      ∧ (ensure_sector_cache (fun _ => .fail)
          (ensure_sector_cache (fun _ => .ok (some "Tech")) [] ["A", "B"]).persisted
          ["A", "B"]).lookups = [] :=
  ensure_second_call_no_lookups (fun _ => .ok (some "Tech")) (fun _ => .fail)
    [] ["A", "B"]

/-! ### C5 -/

/-- C5: the merge in `ensure_sector_cache` never overwrites a loaded entry:
every key of the loaded cache keeps its original value in the returned and
persisted mapping, and only keys absent from the loaded cache gain entries —
for every possible lookup behaviour, including one answering for a key the
cache already holds. -/
theorem ensure_never_overwrites (lookup : Ticker → LookupOutcome)
    (loaded : SectorMap) (tickers : List Ticker) :
    (∀ k v, dictGet loaded k = some v →
        dictGet (ensure_sector_cache lookup loaded tickers).sectors k = some v
          ∧ dictGet (ensure_sector_cache lookup loaded tickers).persisted k
              = some v)
      ∧ (∀ k, dictMem (ensure_sector_cache lookup loaded tickers).sectors k
            = true →
          dictMem loaded k = true
            ∨ (k ∈ tickers ∧ dictMem loaded k = false)) := by
  constructor
  · intro k v hkv
    rw [ensure_persisted_eq, and_self]
    cases hm : (tickers.filter (fun tk => !(dictMem loaded tk))).isEmpty
    · rw [ensure_eq_neg lookup loaded tickers hm]
      have hfetched : dictMem
          (build_sector_cache lookup
            (tickers.filter (fun tk => !(dictMem loaded tk)))) k = false := by
        cases hf : dictMem (build_sector_cache lookup
            (tickers.filter (fun tk => !(dictMem loaded tk)))) k
        · rfl
        · exfalso
          have hmiss := (build_sector_cache_mem lookup _ k).mp hf
          have := (List.mem_filter.mp hmiss).2
          simp [dictMem, hkv] at this
      rw [dictGet_dictUpdate_of_not_mem _ _ _ hfetched]
      exact hkv
    · rw [ensure_eq_pos lookup loaded tickers hm]
      exact hkv
  · intro k hk
    cases hm : (tickers.filter (fun tk => !(dictMem loaded tk))).isEmpty
    · rw [ensure_eq_neg lookup loaded tickers hm] at hk
      rw [dictMem_dictUpdate] at hk
      rcases Bool.or_eq_true_iff.mp hk with h | h
      · exact Or.inl h
      · right
        have hmiss := (build_sector_cache_mem lookup _ k).mp h
        have h2 := List.mem_filter.mp hmiss
        exact ⟨h2.1, by simpa using h2.2⟩
    · left
      rw [ensure_eq_pos lookup loaded tickers hm] at hk
      exact hk

/-- C5 witness: the spec's own scenario — loaded cache `A ↦ Tech`, a lookup
that answers Energy for A and Finance for B, universe `[A, B]`: the merged
mapping keeps `A ↦ Tech`. -/
theorem ensure_never_overwrites_witness :
    dictGet ([("A", "Tech")] : SectorMap) "A" = some "Tech"
      ∧ dictGet (ensure_sector_cache
          (fun tk => if tk = "A" then .ok (some "Energy") else .ok (some "Finance"))
          [("A", "Tech")] ["A", "B"]).sectors "A" = some "Tech" :=
  ⟨by decide,
    ((ensure_never_overwrites
      (fun tk => if tk = "A" then .ok (some "Energy") else .ok (some "Finance"))
      [("A", "Tech")] ["A", "B"]).1 "A" "Tech" (by decide)).1⟩

/-! ### C10 -/

/-- C10: the mapping `ensure_sector_cache` returns has an entry for every
ticker of the input list; a ticker missing from the loaded cache gets
exactly the value its lookup produced, and in particular `"Unknown"` when
the lookup failed — so `sectors.get(tk, "Unknown")` during rendering never
falls back to the default for a universe ticker. -/
theorem ensure_covers_universe (lookup : Ticker → LookupOutcome)
    (loaded : SectorMap) (tickers : List Ticker) :
    (∀ tk ∈ tickers,
        dictMem (ensure_sector_cache lookup loaded tickers).sectors tk = true)
      ∧ (∀ tk ∈ tickers, dictMem loaded tk = false →
          dictGet (ensure_sector_cache lookup loaded tickers).sectors tk
            = some (sectorOf (lookup tk)))
      ∧ (∀ tk ∈ tickers, dictMem loaded tk = false → lookup tk = .fail →
          dictGet (ensure_sector_cache lookup loaded tickers).sectors tk
            = some "Unknown") := by
  have hmain : ∀ tk ∈ tickers, dictMem loaded tk = false →
      dictGet (ensure_sector_cache lookup loaded tickers).sectors tk
        = some (sectorOf (lookup tk)) := by
    intro tk htk hload
    have hmiss : tk ∈ tickers.filter (fun tk => !(dictMem loaded tk)) :=
      List.mem_filter.mpr ⟨htk, by simp [hload]⟩
    cases hm : (tickers.filter (fun tk => !(dictMem loaded tk))).isEmpty
    swap
    · rw [List.isEmpty_iff] at hm
      rw [hm] at hmiss
      exact absurd hmiss (List.not_mem_nil tk)
    · rw [ensure_eq_neg lookup loaded tickers hm]
      refine dictGet_dictUpdate_of_constant _ _ tk (sectorOf (lookup tk)) ?_ ?_
      · intro p hp hpk
        rw [build_sector_cache_values lookup _ p hp, hpk]
      · exact (build_sector_cache_mem lookup _ tk).mpr hmiss
  refine ⟨fun tk htk => ensure_all_mem lookup loaded tickers tk htk, hmain,
    fun tk htk hload hfail => ?_⟩
  rw [hmain tk htk hload, hfail]
  rfl

/-- C10 witness: a failing lookup on a fresh cache still yields an entry,
with value Unknown. -/
theorem ensure_covers_universe_witness :
    dictMem (ensure_sector_cache (fun _ => .fail) [] ["SPY"]).sectors "SPY" = true
      ∧ dictGet (ensure_sector_cache (fun _ => .fail) [] ["SPY"]).sectors "SPY"
          = some "Unknown" :=
  ⟨(ensure_covers_universe (fun _ => .fail) [] ["SPY"]).1 "SPY" (by decide),
   (ensure_covers_universe (fun _ => .fail) [] ["SPY"]).2.2 "SPY" (by decide)
     (by decide) rfl⟩

/-! ### C6 -/

/-- C6 counterexample: a readable cache file parsing to the JSON object
`{"A": 1}` is not a well-formed key-to-string mapping (its value is a
number), yet `load_sector_cache` returns it as-is instead of the empty
mapping the claim requires — the code only checks `isinstance(data, dict)`,
not that the values are strings. -/
theorem load_nonstring_map_counterexample :
    load_sector_cache (.content (.obj [("A", .num 1)])) = [("A", .num 1)]
      ∧ ¬ wellFormedStringMap
          (load_sector_cache (.content (.obj [("A", .num 1)])))
      ∧ load_sector_cache (.content (.obj [("A", .num 1)])) ≠ [] := by
  refine ⟨rfl, ?_, ?_⟩
  · intro h
    obtain ⟨s, hs⟩ := h ("A", .num 1) (by simp [load_sector_cache])
    exact JValue.noConfusion hs
  · intro h
    exact List.noConfusion h

/-- C6 amended: `load_sector_cache` is total (never raises) and returns the
empty mapping when the file is absent, unreadable, fails to parse, or parses
to a non-object JSON value; a parsed JSON object is returned as-is, even
when its values are not strings. -/
theorem load_sector_cache_spec :
    (∀ fs : FileState, load_sector_cache fs = []
        ∨ ∃ m, fs = .content (.obj m) ∧ load_sector_cache fs = m)
      ∧ load_sector_cache .absent = []
      ∧ load_sector_cache .unreadable = []
      ∧ load_sector_cache .malformed = []
      ∧ (∀ q, load_sector_cache (.content (.num q)) = [])
      ∧ (∀ elems, load_sector_cache (.content (.arr elems)) = [])
      ∧ (∀ m, load_sector_cache (.content (.obj m)) = m) := by
  refine ⟨?_, rfl, rfl, rfl, fun q => rfl, fun elems => rfl, fun m => rfl⟩
  intro fs
  cases fs with
  | content v =>
      cases v with
      | obj m => exact Or.inr ⟨m, rfl, rfl⟩
      | null => exact Or.inl rfl
      | bool b => exact Or.inl rfl
      | num q => exact Or.inl rfl
      | str s => exact Or.inl rfl
      | arr elems => exact Or.inl rfl
  | absent => exact Or.inl rfl
  | unreadable => exact Or.inl rfl
  | malformed => exact Or.inl rfl

/-! ### C7 -/

/-- C7: every error the cycle body raises — the fetch call failing or the
empty-table `ValueError` — is caught at the loop level and mapped to a
failed-cycle outcome, never propagating: the loop processes every fetch of
the stream (one outcome per cycle, each depending only on its own fetch),
and after a failed cycle the next cycle runs normally, so a later successful
fetch still renders. -/
theorem loop_survives_failures (sectors : SectorMap) (tks : List Ticker)
    (fs : List FetchResult) :
    ((runLoop sectors tks fs).2.length = fs.length)
      ∧ ((runLoop sectors tks fs).2 = fs.map (runCycle sectors tks))
      ∧ (∀ m, runCycle sectors tks (.error m) = .failed m)
      ∧ (∀ f m, cycleBody sectors tks f = .error m →
          runCycle sectors tks f = .failed m)
      ∧ (∀ table, tableEmpty table = false →
          runCycle sectors tks (.ok table)
            = renderCycle (cycleResults sectors table tks))
      ∧ (∀ m f2, runLoop sectors tks [.error m, f2]
          = (sectors, [.failed m, runCycle sectors tks f2])) := by
  refine ⟨?_, ?_, fun m => rfl, ?_, ?_, ?_⟩
  · rw [runLoop_spec]
    exact List.length_map fs _
  · rw [runLoop_spec]
  · intro f m h
    unfold runCycle
    rw [h]
  · intro table h
    simp [runCycle, cycleBody, h]
  · intro m f2
    rw [runLoop_spec]
    rfl

/-- C7 witness: a failed fetch followed by a successful one — the first
cycle fails, the loop survives, the second renders. -/
theorem loop_survives_failures_witness :
    runCycle [] ["A"] (.error "boom") = .failed "boom"
      ∧ runCycle [] ["A"] (.ok [("A", [some 1, some 2])])
          = renderCycle (cycleResults [] [("A", [some 1, some 2])] ["A"])
      ∧ runLoop [] ["A"] [.error "boom", .ok [("A", [some 1, some 2])]]
          = ([], [.failed "boom",
              runCycle [] ["A"] (.ok [("A", [some 1, some 2])])]) :=
  ⟨(loop_survives_failures [] ["A"] []).2.2.1 "boom",
   (loop_survives_failures [] ["A"] []).2.2.2.2.1 [("A", [some 1, some 2])]
     (by decide),
   (loop_survives_failures [] ["A"] []).2.2.2.2.2 "boom"
     (.ok [("A", [some 1, some 2])])⟩

/-! ### C9 -/

/-- C9: the sector mapping is built exactly once, by the single
`ensure_sector_cache` call before the loop, and no cycle mutates it: after
any number of cycles the threaded mapping is still the initial one, and
every cycle's outcome is a function of that same initial mapping and its own
fetch only. -/
theorem sector_map_frame (lookup : Ticker → LookupOutcome) (loaded : SectorMap)
    (fs : List FetchResult) :
    (mainRun lookup loaded fs).1
        = (ensure_sector_cache lookup loaded TICKERS).sectors
      ∧ (mainRun lookup loaded fs).2
          = fs.map
              (runCycle (ensure_sector_cache lookup loaded TICKERS).sectors
                TICKERS)
      ∧ (∀ (s : SectorMap) (tks : List Ticker) (fr : List FetchResult),
          (runLoop s tks fr).1 = s) := by
  refine ⟨?_, ?_, ?_⟩
  · rw [mainRun, runLoop_spec]
  · rw [mainRun, runLoop_spec]
  · intro s tks fr
    rw [runLoop_spec]

end DailyChange
